import Mathlib

/-!
Shallow embedding of the `dndgame` combat and progression engine
(src/dndgame/entity.py, combat.py, character.py, spells.py, races.py,
weapons.py) together with theorems checking the natural-language
specification against it.

Conventions of the embedding:
* Python `dict[str, int]` stat mappings become insertion-ordered
  association lists `List (String × Int)` with unique keys by construction.
* Python in-place mutation becomes explicit state passing: a method that
  mutates `self` returns the updated record.
* A Python operation that can raise (`KeyError` on a missing stat)
  returns `Option`.
* Dice rolls (`dndgame.dice.roll`, whose module is consumed by the source
  but whose draws the claims fix explicitly) are passed in as explicit
  integer arguments or streams `Nat → Int`, mirroring the deterministic
  mocked-roll style the repository's tests use.
* Python `//` is floor division; on `Int`, `/` here is Euclidean division,
  which agrees with floor division for the positive literal divisors used.
* Python `list.sort(key=..., reverse=True)` is a stable descending sort;
  it is embedded as `List.insertionSort` with the relation
  `fun a b => b.key ≤ a.key`, which is stable in the same way.
-/

namespace DndGame

/-- A Python `dict[str, int]` of ability scores, as an insertion-ordered
association list. -/
abbrev Stats := List (String × Int)

/-- `stats[k]` lookup: first entry with the given key. -/
def lookupStat (stats : Stats) (k : String) : Option Int :=
  match stats.find? (fun p => p.1 = k) with
  | some p => some p.2
  | none => none

/-- `k in stats`. -/
def hasStat (stats : Stats) (k : String) : Bool :=
  (lookupStat stats k).isSome

/-- The six ability names, in the fixed order the source uses. -/
def statNames : List String := ["STR", "DEX", "CON", "INT", "WIS", "CHA"]

/-- The stats mapping contains all six abilities. -/
def hasAllStats (stats : Stats) : Bool :=
  statNames.all (fun k => hasStat stats k)

/-- `stats[k] += delta` (raises `KeyError`, i.e. `none`, when `k` absent). -/
def updateStat (stats : Stats) (k : String) (delta : Int) : Option Stats :=
  if hasStat stats k then
    some (stats.map (fun p => if p.1 = k then (p.1, p.2 + delta) else p))
  else
    none

/-- `weapons.Weapon`: damage dice profile of a weapon (the boolean
property flags are informational only and carried as data). -/
structure Weapon where
  name : String
  damage_dice : Int
  damage_count : Nat
  damage_bonus : Int
  deriving Repr, DecidableEq

/-- `entity.Entity`: the combatant base state (name, stats, hp, max_hp,
armor_class, base_hp) together with the equipped weapon the combat
engine reads via `attacker.weapon`. -/
structure Entity where
  name : String
  stats : Stats
  hp : Int
  max_hp : Int
  armor_class : Int
  base_hp : Int
  weapon : Weapon
  deriving Repr, DecidableEq

/-- `Entity.get_modifier`: `(self.stats[stat] - 10) // 2`; `none` models
the `KeyError` on a missing stat.  Python `//` is floor division, which
for the divisor `2` coincides with `Int` Euclidean division `/`. -/
def Entity.get_modifier (e : Entity) (stat : String) : Option Int :=
  (lookupStat e.stats stat).map (fun v => (v - 10) / 2)

/-- `Entity.is_alive`: `self.hp > 0`. -/
def Entity.is_alive (e : Entity) : Bool :=
  0 < e.hp

/-- `Entity.take_damage`: `self.hp = max(0, self.hp - damage)`. -/
def Entity.take_damage (e : Entity) (damage : Int) : Entity :=
  { e with hp := max 0 (e.hp - damage) }

/-- `combat.Combat`: combatant list, round counter, initiative order. -/
structure Combat where
  combatants : List Entity
  round : Int
  initiative_order : List Entity
  deriving Repr, DecidableEq

/-- `Combat.__init__(*combatants)`. -/
def Combat.init (combatants : List Entity) : Combat :=
  { combatants := combatants, round := 0, initiative_order := [] }

/-- The `for _ in range(weapon.damage_count): weapon_damage += roll(...)`
accumulation in `Combat.attack`, with the successive die results supplied
by the stream `wroll`. -/
def weaponDamageRolls (wroll : Nat → Int) (count : Nat) : Int :=
  (List.range count).foldl (fun acc i => acc + wroll i) 0

/-- `Combat.attack(attacker, defender)`.  The single to-hit d20 draw is
`d20` and the weapon damage draws are the stream `wroll`.  Returns the
damage dealt together with the updated defender and the (untouched)
combat object; `none` models the `KeyError` on a missing STR stat. -/
def Combat.attack (cb : Combat) (d20 : Int) (wroll : Nat → Int)
    (attacker defender : Entity) : Option (Int × Entity × Combat) :=
  match attacker.get_modifier "STR" with
  | none => none
  | some strMod =>
    let attack_roll : Int := d20 + strMod
    if defender.armor_class ≤ attack_roll then
      let weapon := attacker.weapon
      let weapon_damage := weaponDamageRolls wroll weapon.damage_count
      let damage : Int := weapon_damage + strMod + weapon.damage_bonus
      let damage := max 1 damage
      some (damage, defender.take_damage damage, cb)
    else
      some (0, defender, cb)

/-- The per-combatant initiative pairs `(roll(20,1) + DEX modifier,
combatant)` built by the loop in `Combat.roll_initiative`, with the d20
draws supplied positionally by `rolls`; `none` models the `KeyError` on a
missing DEX stat. -/
def initiativePairs (rolls : Nat → Int) : Nat → List Entity → Option (List (Int × Entity))
  | _, [] => some []
  | i, e :: rest =>
    match e.get_modifier "DEX" with
    | none => none
    | some m =>
      (initiativePairs rolls (i + 1) rest).map (fun ps => (rolls i + m, e) :: ps)

/-- Python `initiatives.sort(key=lambda x: x[0], reverse=True)`: a stable
sort descending on the first component. -/
def sortByInitiativeDesc (ps : List (Int × Entity)) : List (Int × Entity) :=
  List.insertionSort (fun a b => b.1 ≤ a.1) ps

/-- `Combat.roll_initiative()`: rolls `1d20 + DEX modifier` for every
combatant, sorts descending (stably), stores the entity order in
`initiative_order` and returns it. -/
def Combat.roll_initiative (cb : Combat) (rolls : Nat → Int) :
    Option (List Entity × Combat) :=
  (initiativePairs rolls 0 cb.combatants).map (fun ps =>
    let order := (sortByInitiativeDesc ps).map (fun p => p.2)
    (order, { cb with initiative_order := order }))

/-- `Combat.is_combat_over()`: at most one combatant is alive. -/
def Combat.is_combat_over (cb : Combat) : Bool :=
  (cb.combatants.filter (fun c => c.is_alive)).length ≤ 1

/-- `Combat.get_winner()`: `alive[0] if len(alive) == 1 else None`. -/
def Combat.get_winner (cb : Combat) : Option Entity :=
  let alive := cb.combatants.filter (fun c => c.is_alive)
  if alive.length = 1 then alive.head? else none

/-- `spells.HealingSpell`: name, level, school, description and the
healing dice profile. -/
structure HealingSpell where
  name : String
  level : Nat
  school : String
  description : String
  healing_dice : Int
  healing_count : Nat
  deriving Repr, DecidableEq

/-- `HealingSpell.cast(caster, target)`: sums `healing_count` healing die
draws (the stream `rolls`), adds the caster's INT modifier, floors at 1,
then heals the target clamped at `max_hp`.  Returns the updated target
and the actually applied healing; `none` models the `KeyError` on a
missing INT stat. -/
def HealingSpell.cast (sp : HealingSpell) (rolls : Nat → Int)
    (caster target : Entity) : Option (Entity × Int) :=
  match caster.get_modifier "INT" with
  | none => none
  | some spell_bonus =>
    let total_healing :=
      (List.range sp.healing_count).foldl (fun acc i => acc + rolls i) 0
    let total_healing := total_healing + spell_bonus
    let total_healing := max 1 total_healing
    let old_hp := target.hp
    let newTarget := { target with hp := min target.max_hp (target.hp + total_healing) }
    some (newTarget, newTarget.hp - old_hp)

/-- `races.Race`: the four fixed race variants of the registry. -/
inductive Race
  | Human
  | Elf
  | Dwarf
  | Halfling
  deriving Repr, DecidableEq

/-- `Race.apply_bonuses(stats)`: in-place mutation of the given stats
mapping (Human: `+1` to every key present; Elf `stats["DEX"] += 2`;
Dwarf `stats["CON"] += 2`; Halfling `stats["DEX"] += 2` then
`stats["CHA"] += 1`); `none` models the `KeyError` a `+=` on an absent
key raises. -/
def Race.apply_bonuses : Race → Stats → Option Stats
  | .Human, stats => some (stats.map (fun p => (p.1, p.2 + 1)))
  | .Elf, stats => updateStat stats "DEX" 2
  | .Dwarf, stats => updateStat stats "CON" 2
  | .Halfling, stats => (updateStat stats "DEX" 2).bind (fun s => updateStat s "CHA" 1)

/-- `character.Character`: the entity fields plus race and progression
state.  The spell-slot mappings are modelled from the spec: the
character spell-slot layer (`spell_slots`, `max_spell_slots`,
`can_cast`, `use_spell_slot`) is referenced by `src/main.py` but its
definition is not under `src/`, so its state is carried here per the
spec's data model (mapping from spell level 0–9 to remaining/maximum
uses). -/
structure Character extends Entity where
  race : Race
  level : Int
  experience : Int
  experience_to_next_level : Int
  spell_slots : Nat → Int
  max_spell_slots : Nat → Int

/-- `Character.level_up()`: increments the level, subtracts the current
threshold from experience, sets the threshold to
`int(experience_to_next_level * 1.5)` (exact float product truncated
toward zero, i.e. `(3·t).tdiv 2`), rolls `1d8 + CON modifier` (the d8
draw is `hp_roll`) for an HP gain floored at 1, and adds the gain to
both `max_hp` and `hp`; `none` models the `KeyError` on a missing CON
stat. -/
def Character.level_up (c : Character) (hp_roll : Int) : Option Character :=
  match c.toEntity.get_modifier "CON" with
  | none => none
  | some conMod =>
    let t := c.experience_to_next_level
    let hp_gain := max 1 (hp_roll + conMod)
    some { c with
      level := c.level + 1,
      experience := c.experience - t,
      experience_to_next_level := (3 * t).tdiv 2,
      max_hp := c.max_hp + hp_gain,
      hp := c.hp + hp_gain }

/-- The `while self.experience >= self.experience_to_next_level:
self.level_up()` loop of `Character.gain_experience`, with the
successive d8 HP draws supplied by `rolls` starting at index `k`.
The loop is embedded with explicit fuel; `gainFuel` below always
suffices when the XP threshold is positive (as it is for every
reachable character), so on that domain this is exactly the source's
while loop. -/
def Character.levelUpWhile (rolls : Nat → Int) : Nat → Nat → Character → Option Character
  | 0, _, _ => none
  | fuel + 1, k, c =>
    if c.experience_to_next_level ≤ c.experience then
      match c.level_up (rolls k) with
      | none => none
      | some c2 => Character.levelUpWhile rolls fuel (k + 1) c2
    else
      some c

/-- Fuel that suffices for `levelUpWhile` whenever the threshold is ≥ 1:
each iteration then lowers `experience` by at least 1 while it stays
nonnegative. -/
def Character.gainFuel (c : Character) : Nat :=
  c.experience.toNat + 1

/-- `Character.gain_experience(amount)`: adds `amount` to experience,
then levels up while `experience >= experience_to_next_level`. -/
def Character.gain_experience (c : Character) (rolls : Nat → Int) (amount : Int) :
    Option Character :=
  let c2 := { c with experience := c.experience + amount }
  Character.levelUpWhile rolls c2.gainFuel 0 c2

/-- Modelled from the spec: `Character.can_cast(level)` is absent from
`src/` (only its caller `src/main.py` survives); per spec §4.7 it is
true iff `level` is a tracked slot tier (0–9) and its remaining count is
positive. -/
def Character.can_cast (c : Character) (level : Nat) : Bool :=
  level ≤ 9 && 0 < c.spell_slots level

/-- Modelled from the spec: `Character.use_spell_slot(level)` is absent
from `src/` (only its caller `src/main.py` survives); per spec §4.7, if
castable it decrements the slot count for that level only when
`level > 0` (level-0/cantrip slots are never decremented) and reports
success, otherwise it fails with no state change. -/
def Character.use_spell_slot (c : Character) (level : Nat) : Bool × Character :=
  if c.can_cast level then
    if 0 < level then
      (true, { c with spell_slots := fun l =>
        if l = level then c.spell_slots l - 1 else c.spell_slots l })
    else
      (true, c)
  else
    (false, c)

/-- Iterated `use_spell_slot` at a fixed level ("no matter how many
times it is called"), discarding the returned flags. -/
def Character.useSpellSlotTimes (c : Character) (level : Nat) : Nat → Character
  | 0 => c
  | n + 1 => ((c.use_spell_slot level).2).useSpellSlotTimes level n

/-- The fresh stats dict built by `Character.roll_stats`:
`{stat: roll(6, 3) for stat in ["STR", ..., "CHA"]}`, with the
individual d6 draws supplied by the stream `draws` (stat number `i`
consumes draws `3·i`, `3·i+1`, `3·i+2`). -/
def rollStatsDict (draws : Nat → Int) : Stats :=
  (statNames.enum).map (fun p =>
    (p.2, draws (3 * p.1) + draws (3 * p.1 + 1) + draws (3 * p.1 + 2)))

/-- A minimal heap of stats dictionaries, used to state the aliasing
claim about racial bonus application faithfully: each Python `dict`
object is a cell, and a character's `self.stats` attribute is a
reference (cell index) into the heap. -/
structure StatsHeap where
  cells : List Stats
  deriving Repr, DecidableEq

/-- Allocate a fresh dict (what the dict display in `roll_stats`
does), returning its reference. -/
def StatsHeap.alloc (h : StatsHeap) (s : Stats) : Nat × StatsHeap :=
  (h.cells.length, ⟨h.cells ++ [s]⟩)

/-- Dereference. -/
def StatsHeap.read (h : StatsHeap) (r : Nat) : Option Stats :=
  h.cells[r]?

/-- Overwrite the cell a reference points to. -/
def StatsHeap.write (h : StatsHeap) (r : Nat) (s : Stats) : StatsHeap :=
  ⟨h.cells.set r s⟩

/-- `Character.roll_stats` allocating its stats dict: builds the fresh
dict from 3d6 draws and allocates a new heap cell for it. -/
def rollStatsAlloc (h : StatsHeap) (draws : Nat → Int) : Nat × StatsHeap :=
  h.alloc (rollStatsDict draws)

/-- `Character.apply_racial_bonuses` acting through the character's
stats reference: `self.race.apply_bonuses(self.stats)` mutates the dict
object the reference points at, in place. -/
def applyBonusesRef (h : StatsHeap) (r : Nat) (race : Race) : Option StatsHeap :=
  match h.read r with
  | none => none
  | some stats =>
    match race.apply_bonuses stats with
    | none => none
    | some stats2 => some (h.write r stats2)

/-! Concrete fixtures, taken from the repository's own test suite and
registries: the test player of `tests/test_combat.py` (Longsword from
the weapon registry) and the goblin of `enemy.create_goblin` (with the
registry's unarmed-strike default weapon). -/

/-- `WEAPONS["Longsword"]`. -/
def longsword : Weapon :=
  { name := "Longsword", damage_dice := 8, damage_count := 1, damage_bonus := 0 }

/-- `WEAPONS["Unarmed"]`. -/
def unarmedStrike : Weapon :=
  { name := "Unarmed Strike", damage_dice := 4, damage_count := 1, damage_bonus := 0 }

/-- The test player fixture of `tests/test_combat.py`. -/
def testPlayer : Entity :=
  { name := "Hero"
    stats := [("STR", 16), ("DEX", 14), ("CON", 14), ("INT", 10), ("WIS", 10), ("CHA", 10)]
    hp := 12, max_hp := 12, armor_class := 10, base_hp := 10
    weapon := longsword }

/-- The goblin of `enemy.create_goblin`. -/
def testGoblin : Entity :=
  { name := "Goblin"
    stats := [("STR", 8), ("DEX", 14), ("CON", 10), ("INT", 10), ("WIS", 8), ("CHA", 8)]
    hp := 7, max_hp := 7, armor_class := 13, base_hp := 7
    weapon := unarmedStrike }

/-- An entity carrying the modifier edge-case scores of the spec
(9, 8, 3). -/
def modProbe : Entity :=
  { name := "Probe"
    stats := [("STR", 9), ("DEX", 8), ("CON", 3), ("INT", 10), ("WIS", 10), ("CHA", 10)]
    hp := 5, max_hp := 5, armor_class := 10, base_hp := 5
    weapon := unarmedStrike }

/-! ### Theorems -/

/-- **C7.** For every integer score `v` present in an entity's stats
mapping, `get_modifier` returns `floor((v - 10) / 2)`, rounding toward
negative infinity (characterised by `2·m ≤ v - 10 < 2·m + 2`); in
particular score 9 yields -1, score 8 yields -1, and score 3 yields
-4. -/
theorem get_modifier_floor (e : Entity) (s : String) (v : Int)
    (h : lookupStat e.stats s = some v) :
    (∃ m, e.get_modifier s = some m ∧ 2 * m ≤ v - 10 ∧ v - 10 < 2 * m + 2) ∧
    modProbe.get_modifier "STR" = some (-1) ∧
    modProbe.get_modifier "DEX" = some (-1) ∧
    modProbe.get_modifier "CON" = some (-4) := by
  refine ⟨⟨(v - 10) / 2, ?_, ?_, ?_⟩, by decide, by decide, by decide⟩
  · simp [Entity.get_modifier, h]
  · omega
  · omega

/-- Witness for `get_modifier_floor` at a concrete entity and stat. -/
theorem get_modifier_floor_witness :
    lookupStat modProbe.stats "CON" = some 3 ∧
    ((∃ m, modProbe.get_modifier "CON" = some m ∧ 2 * m ≤ 3 - 10 ∧ 3 - 10 < 2 * m + 2) ∧
      modProbe.get_modifier "STR" = some (-1) ∧
      modProbe.get_modifier "DEX" = some (-1) ∧
      modProbe.get_modifier "CON" = some (-4)) :=
  ⟨by decide, get_modifier_floor modProbe "CON" 3 (by decide)⟩

/-- **C10.** `take_damage(d)` sets `hp` to exactly `max(0, hp - d)` for
every integer `d`, including negative `d`; a negative damage argument
strictly increases `hp`, and can push it above `max_hp` (no upper
clamp), as the concrete instance shows. -/
theorem take_damage_no_upper_clamp :
    (∀ (e : Entity) (d : Int), (e.take_damage d).hp = max 0 (e.hp - d)) ∧
    (∀ (e : Entity) (d : Int), d < 0 → e.hp < (e.take_damage d).hp) ∧
    testPlayer.max_hp < (testPlayer.take_damage (-5)).hp := by
  refine ⟨fun e d => rfl, fun e d hd => ?_, by decide⟩
  simp only [Entity.take_damage]
  omega

/-- Witness for `take_damage_no_upper_clamp` at concrete inputs. -/
theorem take_damage_no_upper_clamp_witness :
    (testGoblin.take_damage 3).hp = max 0 (testGoblin.hp - 3) ∧
    ((-2 : Int) < 0 ∧ testGoblin.hp < (testGoblin.take_damage (-2)).hp) :=
  ⟨take_damage_no_upper_clamp.1 testGoblin 3,
    by decide, take_damage_no_upper_clamp.2.1 testGoblin (-2) (by decide)⟩

/-- A stats mapping with all six abilities yields a modifier for each of
them. -/
lemma get_modifier_isSome_of_hasAll (e : Entity) (h : hasAllStats e.stats = true)
    (s : String) (hs : s ∈ statNames) : ∃ m, e.get_modifier s = some m := by
  have hh : hasStat e.stats s = true := by
    simpa using (List.all_eq_true.mp h s hs)
  rcases Option.isSome_iff_exists.mp hh with ⟨v, hv⟩
  exact ⟨(v - 10) / 2, by simp [Entity.get_modifier, hv]⟩

/-- **C1.** When the attacker's stats contain all six abilities,
`attack` computes the to-hit value as the single d20 draw plus the
attacker's STR modifier; it hits exactly when that value is ≥ the
defender's armor class (a tie is a hit: the hit branch is the `≤`
branch), on a hit deals `max 1 (Σ weapon rolls + STR modifier +
weapon.damage_bonus)` damage (so always ≥ 1), applies it to the
defender's HP via `take_damage`, and returns the damage dealt; on a
strict miss it returns 0. -/
theorem attack_spec (cb : Combat) (d20 : Int) (wroll : Nat → Int)
    (attacker defender : Entity) (hA : hasAllStats attacker.stats = true) :
    ∃ strMod, attacker.get_modifier "STR" = some strMod ∧
      (defender.armor_class ≤ d20 + strMod →
        (cb.attack d20 wroll attacker defender =
            some (max 1 (weaponDamageRolls wroll attacker.weapon.damage_count
                + strMod + attacker.weapon.damage_bonus),
              defender.take_damage (max 1 (weaponDamageRolls wroll attacker.weapon.damage_count
                + strMod + attacker.weapon.damage_bonus)), cb) ∧
          1 ≤ max 1 (weaponDamageRolls wroll attacker.weapon.damage_count
                + strMod + attacker.weapon.damage_bonus) ∧
          (defender.take_damage (max 1 (weaponDamageRolls wroll attacker.weapon.damage_count
                + strMod + attacker.weapon.damage_bonus))).hp =
            max 0 (defender.hp - max 1 (weaponDamageRolls wroll attacker.weapon.damage_count
                + strMod + attacker.weapon.damage_bonus)))) ∧
      (d20 + strMod < defender.armor_class →
        cb.attack d20 wroll attacker defender = some (0, defender, cb)) := by
  obtain ⟨strMod, hm⟩ := get_modifier_isSome_of_hasAll attacker hA "STR" (by simp [statNames])
  refine ⟨strMod, hm, fun hhit => ?_, fun hmiss => ?_⟩
  · refine ⟨?_, le_max_left _ _, rfl⟩
    simp only [Combat.attack, hm]
    rw [if_pos hhit]
  · simp only [Combat.attack, hm]
    rw [if_neg (by omega)]

/-- Witness for `attack_spec`: the test player (STR 16, modifier +3,
Longsword) attacking the goblin (AC 13) with a d20 draw of 10 (to-hit
13, a tie, hence a hit) and a weapon die draw of 1, for
`max 1 (1 + 3 + 0) = 4` damage. -/
theorem attack_spec_witness :
    hasAllStats testPlayer.stats = true ∧
    (∃ strMod, testPlayer.get_modifier "STR" = some strMod ∧
      (testGoblin.armor_class ≤ 10 + strMod →
        ((Combat.init [testPlayer, testGoblin]).attack 10 (fun _ => 1) testPlayer testGoblin =
            some (max 1 (weaponDamageRolls (fun _ => 1) testPlayer.weapon.damage_count
                + strMod + testPlayer.weapon.damage_bonus),
              testGoblin.take_damage (max 1 (weaponDamageRolls (fun _ => 1) testPlayer.weapon.damage_count
                + strMod + testPlayer.weapon.damage_bonus)), Combat.init [testPlayer, testGoblin]) ∧
          1 ≤ max 1 (weaponDamageRolls (fun _ => 1) testPlayer.weapon.damage_count
                + strMod + testPlayer.weapon.damage_bonus) ∧
          (testGoblin.take_damage (max 1 (weaponDamageRolls (fun _ => 1) testPlayer.weapon.damage_count
                + strMod + testPlayer.weapon.damage_bonus))).hp =
            max 0 (testGoblin.hp - max 1 (weaponDamageRolls (fun _ => 1) testPlayer.weapon.damage_count
                + strMod + testPlayer.weapon.damage_bonus)))) ∧
      (10 + strMod < testGoblin.armor_class →
        (Combat.init [testPlayer, testGoblin]).attack 10 (fun _ => 1) testPlayer testGoblin =
          some (0, testGoblin, Combat.init [testPlayer, testGoblin]))) :=
  ⟨by decide,
    attack_spec (Combat.init [testPlayer, testGoblin]) 10 (fun _ => 1) testPlayer testGoblin (by decide)⟩

/-- **C8.** When the attack misses (to-hit draw plus STR modifier
strictly below the defender's armor class), `attack` returns damage 0
with the defender and the combat object returned exactly as given: no
state is mutated. -/
theorem attack_miss_frame (cb : Combat) (d20 : Int) (wroll : Nat → Int)
    (attacker defender : Entity) (strMod : Int)
    (hm : attacker.get_modifier "STR" = some strMod)
    (hmiss : d20 + strMod < defender.armor_class) :
    cb.attack d20 wroll attacker defender = some (0, defender, cb) := by
  simp only [Combat.attack, hm]
  rw [if_neg (by omega)]

/-- Witness for `attack_miss_frame`: the goblin (STR 8, modifier -1)
rolls a 5 against the player (AC 10): to-hit 4 < 10, a miss, and the
player and combat object come back untouched. -/
theorem attack_miss_frame_witness :
    testGoblin.get_modifier "STR" = some (-1) ∧
    (5 + (-1 : Int) < testPlayer.armor_class) ∧
    (Combat.init [testPlayer, testGoblin]).attack 5 (fun _ => 1) testGoblin testPlayer =
      some (0, testPlayer, Combat.init [testPlayer, testGoblin]) :=
  ⟨by decide, by decide,
    attack_miss_frame (Combat.init [testPlayer, testGoblin]) 5 (fun _ => 1)
      testGoblin testPlayer (-1) (by decide) (by decide)⟩

/-- **C5.** Starting from `0 ≤ hp ≤ max_hp`, every core HP-mutating
operation preserves the invariant: `take_damage d` with `d ≥ 0` yields
exactly `max 0 (hp - d)` (non-increasing, floored at 0), a healing
spell clamps at `max_hp` and never lowers hp, `attack` keeps the
defender's hp in range, and `level_up` keeps the character's hp in
range. -/
theorem hp_invariants (e : Entity) (h0 : 0 ≤ e.hp) (h1 : e.hp ≤ e.max_hp) :
    (∀ d : Int, 0 ≤ d →
      (e.take_damage d).hp = max 0 (e.hp - d) ∧
      (e.take_damage d).hp ≤ e.hp ∧
      0 ≤ (e.take_damage d).hp ∧
      (e.take_damage d).hp ≤ (e.take_damage d).max_hp) ∧
    (∀ (sp : HealingSpell) (rolls : Nat → Int) (caster : Entity) (out : Entity × Int),
      sp.cast rolls caster e = some out →
      e.hp ≤ out.1.hp ∧ 0 ≤ out.1.hp ∧ out.1.hp ≤ out.1.max_hp ∧ out.1.max_hp = e.max_hp) ∧
    (∀ (cb : Combat) (d20 : Int) (wroll : Nat → Int) (attacker : Entity)
        (out : Int × Entity × Combat),
      cb.attack d20 wroll attacker e = some out →
      0 ≤ out.2.1.hp ∧ out.2.1.hp ≤ out.2.1.max_hp) ∧
    (∀ (c : Character) (hp_roll : Int) (c2 : Character),
      c.level_up hp_roll = some c2 → 0 ≤ c.hp → c.hp ≤ c.max_hp →
      0 ≤ c2.hp ∧ c2.hp ≤ c2.max_hp) := by
  refine ⟨fun d hd => ?_, fun sp rolls caster out hout => ?_,
    fun cb d20 wroll attacker out hout => ?_, fun c hp_roll c2 hlv hc0 hc1 => ?_⟩
  · refine ⟨rfl, ?_, ?_, ?_⟩ <;> simp only [Entity.take_damage] <;> omega
  · rcases hcast : caster.get_modifier "INT" with _ | m
    · simp [HealingSpell.cast, hcast] at hout
    · have hcal : sp.cast rolls caster e =
          some ({ e with hp := min e.max_hp (e.hp + max 1
              ((List.range sp.healing_count).foldl (fun acc i => acc + rolls i) 0 + m)) },
            min e.max_hp (e.hp + max 1
              ((List.range sp.healing_count).foldl (fun acc i => acc + rolls i) 0 + m)) - e.hp) := by
        simp [HealingSpell.cast, hcast]
      rw [hcal] at hout
      injection hout with h
      subst h
      refine ⟨?_, ?_, ?_, rfl⟩ <;> simp <;> omega
  · rcases hstr : attacker.get_modifier "STR" with _ | m
    · simp [Combat.attack, hstr] at hout
    · by_cases hcond : e.armor_class ≤ d20 + m
      · have hcal : cb.attack d20 wroll attacker e =
            some (max 1 (weaponDamageRolls wroll attacker.weapon.damage_count
                + m + attacker.weapon.damage_bonus),
              e.take_damage (max 1 (weaponDamageRolls wroll attacker.weapon.damage_count
                + m + attacker.weapon.damage_bonus)), cb) := by
          simp only [Combat.attack, hstr]
          rw [if_pos hcond]
        rw [hcal] at hout
        injection hout with h
        subst h
        simp only [Entity.take_damage]
        constructor <;> omega
      · have hcal : cb.attack d20 wroll attacker e = some (0, e, cb) := by
          simp only [Combat.attack, hstr]
          rw [if_neg hcond]
        rw [hcal] at hout
        injection hout with h
        subst h
        exact ⟨h0, h1⟩
  · rcases hcon : c.toEntity.get_modifier "CON" with _ | m
    · simp [Character.level_up, hcon] at hlv
    · have hcal : c.level_up hp_roll =
          some { c with
            level := c.level + 1,
            experience := c.experience - c.experience_to_next_level,
            experience_to_next_level := (3 * c.experience_to_next_level).tdiv 2,
            max_hp := c.max_hp + max 1 (hp_roll + m),
            hp := c.hp + max 1 (hp_roll + m) } := by
        simp [Character.level_up, hcon]
      rw [hcal] at hlv
      injection hlv with h
      subst h
      constructor <;> simp <;> omega

/-- Witness for `hp_invariants` at the goblin fixture: damage 3 obeys
the damage equation and keeps hp in `[0, max_hp]`. -/
theorem hp_invariants_witness :
    (0 ≤ testGoblin.hp ∧ testGoblin.hp ≤ testGoblin.max_hp) ∧
    ((testGoblin.take_damage 3).hp = max 0 (testGoblin.hp - 3) ∧
      (testGoblin.take_damage 3).hp ≤ testGoblin.hp ∧
      0 ≤ (testGoblin.take_damage 3).hp ∧
      (testGoblin.take_damage 3).hp ≤ (testGoblin.take_damage 3).max_hp) :=
  ⟨⟨by decide, by decide⟩,
    (hp_invariants testGoblin (by decide) (by decide)).1 3 (by decide)⟩

/-- **C6.** `is_combat_over` is true iff at most one registered
combatant has `hp > 0`; `get_winner` returns `w` iff the list of living
combatants is exactly `[w]`, and no winner iff the number of living
combatants differs from 1; and the three concrete scenarios behave as
specified. -/
theorem combat_over_winner (cb : Combat) :
    (cb.is_combat_over = true ↔ cb.combatants.countP (fun e => decide (0 < e.hp)) ≤ 1) ∧
    (∀ w, cb.get_winner = some w ↔ cb.combatants.filter (fun e => e.is_alive) = [w]) ∧
    (cb.get_winner = none ↔ (cb.combatants.filter (fun e => e.is_alive)).length ≠ 1) ∧
    ((Combat.init [{ testPlayer with hp := 0 }, testGoblin]).is_combat_over = true ∧
      (Combat.init [{ testPlayer with hp := 0 }, testGoblin]).get_winner = some testGoblin) ∧
    ((Combat.init [{ testPlayer with hp := 0 },
        { testGoblin with hp := 0 }]).is_combat_over = true ∧
      (Combat.init [{ testPlayer with hp := 0 },
        { testGoblin with hp := 0 }]).get_winner = none) ∧
    ((Combat.init [testPlayer, testGoblin]).is_combat_over = false ∧
      (Combat.init [testPlayer, testGoblin]).get_winner = none) := by
  refine ⟨?_, fun w => ?_, ?_, by decide, by decide, by decide⟩
  · simp only [Combat.is_combat_over, decide_eq_true_eq]
    rw [← List.countP_eq_length_filter]
    exact Iff.rfl
  · simp only [Combat.get_winner]
    rcases halive : cb.combatants.filter (fun e => e.is_alive) with _ | ⟨a, _ | ⟨b, t⟩⟩ <;>
      simp [halive]
  · simp only [Combat.get_winner]
    rcases halive : cb.combatants.filter (fun e => e.is_alive) with _ | ⟨a, _ | ⟨b, t⟩⟩ <;>
      simp [halive]

/-- Witness for `combat_over_winner`: a one-combatant combat has that
combatant as winner, through the iff of the theorem. -/
theorem combat_over_winner_witness :
    (Combat.init [testPlayer]).get_winner = some testPlayer :=
  ((combat_over_winner (Combat.init [testPlayer])).2.1 testPlayer).mpr (by decide)

/-- When every combatant's stats contain DEX, `initiativePairs`
succeeds, has one pair per combatant, and pair `j` is
`(rolls (i + j) + DEX modifier, combatant j)`. -/
lemma initiativePairs_some (rolls : Nat → Int) (l : List Entity) :
    ∀ i : Nat, (∀ e ∈ l, hasStat e.stats "DEX" = true) →
    ∃ ps, initiativePairs rolls i l = some ps ∧ ps.length = l.length ∧
      ∀ j e m, l[j]? = some e → e.get_modifier "DEX" = some m →
        ps[j]? = some (rolls (i + j) + m, e) := by
  induction l with
  | nil =>
    intro i _
    exact ⟨[], rfl, rfl, by intro j e m hj hm; simp at hj⟩
  | cons e rest ih =>
    intro i h
    have hd : hasStat e.stats "DEX" = true := h e (List.mem_cons_self e rest)
    rcases Option.isSome_iff_exists.mp hd with ⟨v, hv⟩
    have hm0 : e.get_modifier "DEX" = some ((v - 10) / 2) := by
      simp [Entity.get_modifier, hv]
    obtain ⟨ps, hps, hlen, hidx⟩ :=
      ih (i + 1) (fun x hx => h x (List.mem_cons_of_mem _ hx))
    refine ⟨(rolls i + (v - 10) / 2, e) :: ps, ?_, by simp [hlen], ?_⟩
    · simp [initiativePairs, hm0, hps]
    · intro j e2 m hj hm
      cases j with
      | zero =>
        simp only [List.getElem?_cons_zero, Option.some.injEq] at hj
        subst hj
        rw [hm0] at hm
        injection hm with hm
        subst hm
        simp
      | succ j2 =>
        simp only [List.getElem?_cons_succ] at hj ⊢
        have := hidx j2 e2 m hj hm
        rw [show i + 1 + j2 = i + (j2 + 1) by omega] at this
        exact this

/-- Inserting a pair with `orderedInsert` for the descending-key
relation puts it after every strictly-greater key and before everything
else, so filtering by an exact key value sees the inserted pair first
exactly when its key matches. -/
lemma filter_orderedInsert_key (p : Int × Entity) (l : List (Int × Entity)) (k : Int) :
    (List.orderedInsert (fun a b => b.1 ≤ a.1) p l).filter (fun q => q.1 = k) =
      if p.1 = k then p :: l.filter (fun q => q.1 = k)
      else l.filter (fun q => q.1 = k) := by
  induction l with
  | nil =>
    by_cases hp : p.1 = k <;> simp [List.orderedInsert, List.filter, hp]
  | cons b bs ih =>
    by_cases hb : b.1 ≤ p.1
    · have horder : List.orderedInsert (fun a b2 => b2.1 ≤ a.1) p (b :: bs) = p :: b :: bs := by
        simp [List.orderedInsert, hb]
      rw [horder]
      by_cases hp : p.1 = k <;> simp [List.filter, hp]
    · have horder : List.orderedInsert (fun a b2 => b2.1 ≤ a.1) p (b :: bs) =
          b :: List.orderedInsert (fun a b2 => b2.1 ≤ a.1) p bs := by
        simp [List.orderedInsert, hb]
      rw [horder]
      by_cases hp : p.1 = k
      · have hbk : ¬ (b.1 = k) := by omega
        simp [List.filter_cons, hbk, ih, hp]
      · simp [List.filter_cons, ih, hp]

/-- Stability of the embedded Python sort: filtering the sorted list by
any exact key value gives the same subsequence, in the same order, as
filtering the input. -/
lemma filter_sortByInitiativeDesc (ps : List (Int × Entity)) (k : Int) :
    (sortByInitiativeDesc ps).filter (fun q => q.1 = k) =
      ps.filter (fun q => q.1 = k) := by
  unfold sortByInitiativeDesc
  induction ps with
  | nil => rfl
  | cons p ps ih =>
    show (List.orderedInsert _ p (List.insertionSort _ ps)).filter _ = _
    rw [filter_orderedInsert_key]
    by_cases hp : p.1 = k
    · rw [if_pos hp, ih, List.filter_cons]
      simp [hp]
    · rw [if_neg hp, ih, List.filter_cons]
      simp [hp]

/-- **C4.** When every combatant's stats contain DEX, `roll_initiative`
builds one `1d20 + DEX modifier` key per combatant (pair `j` holds the
`j`-th draw plus the `j`-th combatant's DEX modifier), sorts the
combatants in descending key order with ties keeping the original input
order (the filter equation: equal-key combatants appear in exactly
their input order), stores the result in `initiative_order` and returns
it; and on the test fixtures, mocked d20 draws `[15, 10]` for
`[player, goblin]` give the order `[player, goblin]` while `[5, 18]`
give `[goblin, player]`. -/
theorem roll_initiative_spec (cb : Combat) (rolls : Nat → Int)
    (h : ∀ e ∈ cb.combatants, hasStat e.stats "DEX" = true) :
    (∃ ps, initiativePairs rolls 0 cb.combatants = some ps ∧
      ps.length = cb.combatants.length ∧
      (∀ j e m, cb.combatants[j]? = some e → e.get_modifier "DEX" = some m →
        ps[j]? = some (rolls j + m, e)) ∧
      cb.roll_initiative rolls =
        some ((sortByInitiativeDesc ps).map (fun p => p.2),
          { cb with initiative_order := (sortByInitiativeDesc ps).map (fun p => p.2) }) ∧
      (sortByInitiativeDesc ps).Perm ps ∧
      (sortByInitiativeDesc ps).Sorted (fun a b => b.1 ≤ a.1) ∧
      (∀ k : Int, (sortByInitiativeDesc ps).filter (fun q => q.1 = k) =
        ps.filter (fun q => q.1 = k))) ∧
    (Combat.init [testPlayer, testGoblin]).roll_initiative
        (fun i => if i = 0 then 15 else 10) =
      some ([testPlayer, testGoblin],
        { combatants := [testPlayer, testGoblin], round := 0,
          initiative_order := [testPlayer, testGoblin] }) ∧
    (Combat.init [testPlayer, testGoblin]).roll_initiative
        (fun i => if i = 0 then 5 else 18) =
      some ([testGoblin, testPlayer],
        { combatants := [testPlayer, testGoblin], round := 0,
          initiative_order := [testGoblin, testPlayer] }) := by
  refine ⟨?_, by decide, by decide⟩
  obtain ⟨ps, hps, hlen, hidx⟩ := initiativePairs_some rolls cb.combatants 0 h
  haveI : IsTotal (Int × Entity) (fun a b => b.1 ≤ a.1) := ⟨fun a b => le_total b.1 a.1⟩
  haveI : IsTrans (Int × Entity) (fun a b => b.1 ≤ a.1) :=
    ⟨fun _ _ _ h1 h2 => le_trans h2 h1⟩
  refine ⟨ps, hps, hlen, fun j e m hj hm => by simpa using hidx j e m hj hm, ?_, ?_, ?_, ?_⟩
  · simp [Combat.roll_initiative, hps]
  · exact List.perm_insertionSort _ _
  · exact List.sorted_insertionSort _ _
  · exact fun k => filter_sortByInitiativeDesc ps k

/-- Witness for `roll_initiative_spec` at the two-combatant test
fixture, with the DEX hypothesis discharged concretely. -/
theorem roll_initiative_spec_witness :
    (∀ e ∈ (Combat.init [testPlayer, testGoblin]).combatants,
      hasStat e.stats "DEX" = true) ∧
    (Combat.init [testPlayer, testGoblin]).roll_initiative
        (fun i => if i = 0 then 15 else 10) =
      some ([testPlayer, testGoblin],
        { combatants := [testPlayer, testGoblin], round := 0,
          initiative_order := [testPlayer, testGoblin] }) :=
  ⟨by decide,
    (roll_initiative_spec (Combat.init [testPlayer, testGoblin])
      (fun i => if i = 0 then 15 else 10) (by decide)).2.1⟩

/-- `level_up` written out when the CON modifier is available. -/
lemma level_up_eq (c : Character) (r m : Int)
    (hm : c.toEntity.get_modifier "CON" = some m) :
    c.level_up r = some { c with
      level := c.level + 1,
      experience := c.experience - c.experience_to_next_level,
      experience_to_next_level := (3 * c.experience_to_next_level).tdiv 2,
      max_hp := c.max_hp + max 1 (r + m),
      hp := c.hp + max 1 (r + m) } := by
  simp [Character.level_up, hm]

/-- A threshold that is at least 1 stays at least as large (and ≥ 1)
after the ×1.5 truncated growth. -/
lemma threshold_grows {t : Int} (h : 1 ≤ t) :
    t ≤ (3 * t).tdiv 2 ∧ 1 ≤ (3 * t).tdiv 2 := by
  rw [Int.tdiv_eq_ediv (by omega) (by omega)]
  omega

/-- One unfolding of the XP while-loop when the guard holds. -/
lemma levelUpWhile_step_true (rolls : Nat → Int) (fuel k : Nat) (c : Character)
    (hcond : c.experience_to_next_level ≤ c.experience) :
    Character.levelUpWhile rolls (fuel + 1) k c =
      match c.level_up (rolls k) with
      | none => none
      | some c2 => Character.levelUpWhile rolls fuel (k + 1) c2 := by
  simp [Character.levelUpWhile, hcond]

/-- One unfolding of the XP while-loop when the guard fails. -/
lemma levelUpWhile_step_false (rolls : Nat → Int) (fuel k : Nat) (c : Character)
    (hcond : ¬ c.experience_to_next_level ≤ c.experience) :
    Character.levelUpWhile rolls (fuel + 1) k c = some c := by
  simp [Character.levelUpWhile, hcond]

/-- Loop step with the fuel successor shape supplied as an equation
(avoids syntactic fuel matching in long unfoldings). -/
lemma levelUpWhile_go_true (rolls : Nat → Int) (fuel fuel2 k : Nat) (c c2 : Character)
    (hfuel : fuel = fuel2 + 1)
    (hcond : c.experience_to_next_level ≤ c.experience)
    (hlv : c.level_up (rolls k) = some c2) :
    Character.levelUpWhile rolls fuel k c =
      Character.levelUpWhile rolls fuel2 (k + 1) c2 := by
  subst hfuel
  simp [Character.levelUpWhile, hcond, hlv]

/-- Loop exit with the fuel successor shape supplied as an equation. -/
lemma levelUpWhile_go_false (rolls : Nat → Int) (fuel fuel2 k : Nat) (c : Character)
    (hfuel : fuel = fuel2 + 1)
    (hcond : ¬ c.experience_to_next_level ≤ c.experience) :
    Character.levelUpWhile rolls fuel k c = some c := by
  subst hfuel
  simp [Character.levelUpWhile, hcond]

/-- The embedded while-loop terminates with the loop guard false
whenever the character's stats are complete and the threshold is
positive, for any fuel exceeding the current experience. -/
lemma levelUpWhile_terminates (rolls : Nat → Int) :
    ∀ (fuel k : Nat) (c : Character), hasAllStats c.toEntity.stats = true →
      1 ≤ c.experience_to_next_level → c.experience.toNat < fuel →
      ∃ c2, Character.levelUpWhile rolls fuel k c = some c2 ∧
        c2.experience < c2.experience_to_next_level := by
  intro fuel
  induction fuel with
  | zero => intro k c _ _ hf; omega
  | succ fuel ih =>
    intro k c hstats hpos hf
    by_cases hcond : c.experience_to_next_level ≤ c.experience
    · obtain ⟨m, hm⟩ :=
        get_modifier_isSome_of_hasAll c.toEntity hstats "CON" (by simp [statNames])
      rw [levelUpWhile_step_true rolls fuel k c hcond, level_up_eq c (rolls k) m hm]
      have hgrow := threshold_grows hpos
      refine ih (k + 1) _ ?_ ?_ ?_
      · exact hstats
      · exact hgrow.2
      · simp only
        omega
    · exact ⟨c, levelUpWhile_step_false rolls fuel k c hcond, by omega⟩

/-- **C2.** With all six abilities present and a positive XP threshold:
(i) `gain_experience` always finishes its level-up loop with the
experience strictly below the (new) threshold; (ii) an award that spans
exactly two thresholds increases the level by exactly 2 and carries the
XP remainder forward across both level-ups (the threshold being
×1.5-truncated twice); (iii) `gain_experience(100)` at experience 0 and
threshold 100 performs exactly one level-up, leaves experience 0 and
sets the threshold to 150. -/
theorem gain_experience_spec (c : Character) (rolls : Nat → Int)
    (hstats : hasAllStats c.toEntity.stats = true)
    (hpos : 1 ≤ c.experience_to_next_level) :
    (∀ amount : Int, ∃ c2, c.gain_experience rolls amount = some c2 ∧
      c2.experience < c2.experience_to_next_level) ∧
    (∀ amount : Int,
      c.experience_to_next_level
          + (3 * c.experience_to_next_level).tdiv 2 ≤ c.experience + amount →
      c.experience + amount - c.experience_to_next_level
          - (3 * c.experience_to_next_level).tdiv 2
        < (3 * ((3 * c.experience_to_next_level).tdiv 2)).tdiv 2 →
      ∃ c2, c.gain_experience rolls amount = some c2 ∧
        c2.level = c.level + 2 ∧
        c2.experience = c.experience + amount - c.experience_to_next_level
          - (3 * c.experience_to_next_level).tdiv 2 ∧
        c2.experience_to_next_level
          = (3 * ((3 * c.experience_to_next_level).tdiv 2)).tdiv 2) ∧
    (c.experience = 0 → c.experience_to_next_level = 100 →
      ∃ c2, c.gain_experience rolls 100 = some c2 ∧
        c2.level = c.level + 1 ∧ c2.experience = 0 ∧
        c2.experience_to_next_level = 150) := by
  obtain ⟨m, hm⟩ :=
    get_modifier_isSome_of_hasAll c.toEntity hstats "CON" (by simp [statNames])
  refine ⟨fun amount => ?_, fun amount h1 h2 => ?_, fun hexp ht => ?_⟩
  · exact levelUpWhile_terminates rolls _ 0 _ hstats hpos (by simp [Character.gainFuel])
  · have hgrow1 := threshold_grows hpos
    have hgrow2 := threshold_grows hgrow1.2
    have he2 : 2 ≤ c.experience + amount := by omega
    have hc2 : ∃ c2 : Character, c2 = { c with experience := c.experience + amount } :=
      ⟨_, rfl⟩
    obtain ⟨c2, hc2⟩ := hc2
    have hm2 : c2.toEntity.get_modifier "CON" = some m := by rw [hc2]; exact hm
    have hcond1 : c2.experience_to_next_level ≤ c2.experience := by
      rw [hc2]; simp only; omega
    have hfuel2 : c2.gainFuel = (c2.gainFuel - 2) + 1 + 1 := by
      rw [hc2]; simp only [Character.gainFuel]; omega
    obtain ⟨c3, hc3⟩ : ∃ c3 : Character, c3 = { c2 with
      level := c2.level + 1,
      experience := c2.experience - c2.experience_to_next_level,
      experience_to_next_level := (3 * c2.experience_to_next_level).tdiv 2,
      max_hp := c2.max_hp + max 1 (rolls 0 + m),
      hp := c2.hp + max 1 (rolls 0 + m) } := ⟨_, rfl⟩
    have hm3 : c3.toEntity.get_modifier "CON" = some m := by rw [hc3]; exact hm2
    have hcond2 : c3.experience_to_next_level ≤ c3.experience := by
      rw [hc3, hc2]; simp only; omega
    obtain ⟨c4, hc4⟩ : ∃ c4 : Character, c4 = { c3 with
      level := c3.level + 1,
      experience := c3.experience - c3.experience_to_next_level,
      experience_to_next_level := (3 * c3.experience_to_next_level).tdiv 2,
      max_hp := c3.max_hp + max 1 (rolls 1 + m),
      hp := c3.hp + max 1 (rolls 1 + m) } := ⟨_, rfl⟩
    have hcond3 : ¬ c4.experience_to_next_level ≤ c4.experience := by
      rw [hc4, hc3, hc2]; simp only; omega
    have hrun : c.gain_experience rolls amount = some c4 := by
      have e0 : c.gain_experience rolls amount =
          Character.levelUpWhile rolls c2.gainFuel 0 c2 := by
        rw [hc2]; rfl
      have e1 : Character.levelUpWhile rolls c2.gainFuel 0 c2 =
          Character.levelUpWhile rolls ((c2.gainFuel - 2) + 1) 1 c3 :=
        levelUpWhile_go_true rolls _ _ 0 c2 c3 hfuel2 hcond1
          (by rw [level_up_eq c2 (rolls 0) m hm2, hc3])
      have e2 : Character.levelUpWhile rolls ((c2.gainFuel - 2) + 1) 1 c3 =
          Character.levelUpWhile rolls (c2.gainFuel - 2) 2 c4 :=
        levelUpWhile_go_true rolls _ _ 1 c3 c4 rfl hcond2
          (by rw [level_up_eq c3 (rolls 1) m hm3, hc4])
      have hfuel3 : c2.gainFuel - 2 = (c2.gainFuel - 3) + 1 := by
        rw [hc2]; simp only [Character.gainFuel]; omega
      have e3 : Character.levelUpWhile rolls (c2.gainFuel - 2) 2 c4 = some c4 :=
        levelUpWhile_go_false rolls _ _ 2 c4 hfuel3 hcond3
      rw [e0, e1, e2, e3]
    refine ⟨c4, hrun, ?_, ?_, ?_⟩ <;>
      (rw [hc4, hc3, hc2]; try simp only; try omega)
  · obtain ⟨c2, hc2⟩ : ∃ c2 : Character,
        c2 = { c with experience := c.experience + 100 } := ⟨_, rfl⟩
    have hm2 : c2.toEntity.get_modifier "CON" = some m := by rw [hc2]; exact hm
    have hcond1 : c2.experience_to_next_level ≤ c2.experience := by
      rw [hc2]; simp only; omega
    have hfuel2 : c2.gainFuel = (c2.gainFuel - 1) + 1 := by
      rw [hc2]; simp only [Character.gainFuel]; omega
    obtain ⟨c3, hc3⟩ : ∃ c3 : Character, c3 = { c2 with
      level := c2.level + 1,
      experience := c2.experience - c2.experience_to_next_level,
      experience_to_next_level := (3 * c2.experience_to_next_level).tdiv 2,
      max_hp := c2.max_hp + max 1 (rolls 0 + m),
      hp := c2.hp + max 1 (rolls 0 + m) } := ⟨_, rfl⟩
    have h150 : (3 * (100 : Int)).tdiv 2 = 150 := by decide
    have hthr3 : c3.experience_to_next_level = 150 := by
      rw [hc3, hc2]; simp only; rw [ht, h150]
    have hexp3 : c3.experience = 0 := by
      rw [hc3, hc2]; simp only; omega
    have hcond2 : ¬ c3.experience_to_next_level ≤ c3.experience := by
      rw [hthr3, hexp3]; omega
    have hrun : c.gain_experience rolls 100 = some c3 := by
      have e0 : c.gain_experience rolls 100 =
          Character.levelUpWhile rolls c2.gainFuel 0 c2 := by
        rw [hc2]; rfl
      have e1 : Character.levelUpWhile rolls c2.gainFuel 0 c2 =
          Character.levelUpWhile rolls (c2.gainFuel - 1) 1 c3 :=
        levelUpWhile_go_true rolls _ _ 0 c2 c3 hfuel2 hcond1
          (by rw [level_up_eq c2 (rolls 0) m hm2, hc3])
      have hfuel3 : c2.gainFuel - 1 = (c2.gainFuel - 2) + 1 := by
        rw [hc2]; simp only [Character.gainFuel]; omega
      have e2 : Character.levelUpWhile rolls (c2.gainFuel - 1) 1 c3 = some c3 :=
        levelUpWhile_go_false rolls _ _ 1 c3 hfuel3 hcond2
      rw [e0, e1, e2]
    refine ⟨c3, hrun, ?_, hexp3, hthr3⟩
    rw [hc3, hc2]

/-- A concrete character fixture: the test player's entity with fresh
progression state and two level-1 spell slots. -/
def testChar : Character :=
  { toEntity := testPlayer
    race := Race.Human
    level := 1
    experience := 0
    experience_to_next_level := 100
    spell_slots := fun l => if l = 1 then 2 else 0
    max_spell_slots := fun l => if l = 1 then 2 else 0 }

/-- Witness for `gain_experience_spec`: the fixture character gains 100
XP at threshold 100 and levels up exactly once to threshold 150. -/
theorem gain_experience_spec_witness :
    (hasAllStats testChar.toEntity.stats = true ∧
      1 ≤ testChar.experience_to_next_level) ∧
    (∃ c2, testChar.gain_experience (fun _ => 4) 100 = some c2 ∧
      c2.level = testChar.level + 1 ∧ c2.experience = 0 ∧
      c2.experience_to_next_level = 150) :=
  ⟨⟨by decide, by decide⟩,
    (gain_experience_spec testChar (fun _ => 4) (by decide) (by decide)).2.2 rfl rfl⟩

/-- `use_spell_slot` at a cantrip level returns the character
unchanged. -/
lemma use_spell_slot_zero_id (c : Character) : (c.use_spell_slot 0).2 = c := by
  by_cases h : c.can_cast 0 = true <;> simp [Character.use_spell_slot, h]

/-- **C3.** `use_spell_slot(1)` with no remaining level-1 slots returns
`false` and mutates nothing; with at least one slot it returns `true`,
decrements the level-1 count by exactly 1 and leaves every other slot
level and every other character field unchanged; and `use_spell_slot(0)`
never decrements the cantrip count no matter how many times it is
called. -/
theorem use_spell_slot_spec (c : Character) :
    (c.spell_slots 1 = 0 → c.use_spell_slot 1 = (false, c)) ∧
    (0 < c.spell_slots 1 →
      (c.use_spell_slot 1).1 = true ∧
      (c.use_spell_slot 1).2.spell_slots 1 = c.spell_slots 1 - 1 ∧
      (∀ l, l ≠ 1 → (c.use_spell_slot 1).2.spell_slots l = c.spell_slots l) ∧
      (c.use_spell_slot 1).2.toEntity = c.toEntity ∧
      (c.use_spell_slot 1).2.level = c.level ∧
      (c.use_spell_slot 1).2.experience = c.experience ∧
      (c.use_spell_slot 1).2.experience_to_next_level = c.experience_to_next_level ∧
      (c.use_spell_slot 1).2.max_spell_slots = c.max_spell_slots) ∧
    (∀ n, (c.useSpellSlotTimes 0 n).spell_slots 0 = c.spell_slots 0) := by
  refine ⟨fun h0 => ?_, fun h1 => ?_, fun n => ?_⟩
  · have hc : c.can_cast 1 = false := by
      simp [Character.can_cast, h0]
    simp [Character.use_spell_slot, hc]
  · have hc : c.can_cast 1 = true := by
      simp [Character.can_cast]
      omega
    refine ⟨by simp [Character.use_spell_slot, hc], ?_, fun l hl => ?_, ?_, ?_, ?_, ?_, ?_⟩
    · simp [Character.use_spell_slot, hc]
    · simp [Character.use_spell_slot, hc, hl]
    · simp [Character.use_spell_slot, hc]
    · simp [Character.use_spell_slot, hc]
    · simp [Character.use_spell_slot, hc]
    · simp [Character.use_spell_slot, hc]
    · simp [Character.use_spell_slot, hc]
  · have hall : ∀ d : Character, (d.useSpellSlotTimes 0 n) = d := by
      induction n with
      | zero => intro d; rfl
      | succ n ih =>
        intro d
        show ((d.use_spell_slot 0).2).useSpellSlotTimes 0 n = d
        rw [use_spell_slot_zero_id d]
        exact ih d
    rw [hall c]

/-- Witness for `use_spell_slot_spec` at the fixture character: two
level-1 slots, so a cast succeeds and leaves exactly one. -/
theorem use_spell_slot_spec_witness :
    (0 < testChar.spell_slots 1) ∧
    (testChar.use_spell_slot 1).1 = true ∧
    (testChar.use_spell_slot 1).2.spell_slots 1 = testChar.spell_slots 1 - 1 :=
  ⟨by decide,
    ((use_spell_slot_spec testChar).2.1 (by decide)).1,
    ((use_spell_slot_spec testChar).2.1 (by decide)).2.1⟩

/-- Writing through one reference leaves every other cell unchanged. -/
lemma read_write_ne (h : StatsHeap) (i j : Nat) (s : Stats) (hij : i ≠ j) :
    (h.write i s).read j = h.read j := by
  simp [StatsHeap.write, StatsHeap.read, List.getElem?_set_ne hij]

/-- `apply_bonuses` succeeds on any freshly rolled stats dict (all six
keys are present). -/
lemma apply_bonuses_rollStatsDict (race : Race) (draws : Nat → Int) :
    ∃ s2, race.apply_bonuses (rollStatsDict draws) = some s2 := by
  cases race <;>
    simp [Race.apply_bonuses, rollStatsDict, statNames, updateStat,
      hasStat, lookupStat, List.enum]

/-- **C9.** Two characters that each roll their own stats dict hold
distinct references, and applying racial bonuses through the first
character's reference succeeds and leaves the second character's stats
dict (and symmetrically the first's, when applying through the second)
completely unchanged: bonus application cannot leak between
characters. -/
theorem racial_bonus_no_leak (h : StatsHeap) (draws1 draws2 : Nat → Int) (race : Race) :
    (rollStatsAlloc h draws1).1 ≠ (rollStatsAlloc (rollStatsAlloc h draws1).2 draws2).1 ∧
    (∃ h3, applyBonusesRef (rollStatsAlloc (rollStatsAlloc h draws1).2 draws2).2
        (rollStatsAlloc h draws1).1 race = some h3 ∧
      h3.read (rollStatsAlloc (rollStatsAlloc h draws1).2 draws2).1 =
        (rollStatsAlloc (rollStatsAlloc h draws1).2 draws2).2.read
          (rollStatsAlloc (rollStatsAlloc h draws1).2 draws2).1) ∧
    (∃ h4, applyBonusesRef (rollStatsAlloc (rollStatsAlloc h draws1).2 draws2).2
        (rollStatsAlloc (rollStatsAlloc h draws1).2 draws2).1 race = some h4 ∧
      h4.read (rollStatsAlloc h draws1).1 =
        (rollStatsAlloc (rollStatsAlloc h draws1).2 draws2).2.read
          (rollStatsAlloc h draws1).1) := by
  have hr1 : (rollStatsAlloc h draws1).1 = h.cells.length := rfl
  have hr2 : (rollStatsAlloc (rollStatsAlloc h draws1).2 draws2).1
      = h.cells.length + 1 := by
    simp [rollStatsAlloc, StatsHeap.alloc]
  have hne : (rollStatsAlloc h draws1).1
      ≠ (rollStatsAlloc (rollStatsAlloc h draws1).2 draws2).1 := by
    rw [hr1, hr2]; omega
  have hread1 : (rollStatsAlloc (rollStatsAlloc h draws1).2 draws2).2.read
      (rollStatsAlloc h draws1).1 = some (rollStatsDict draws1) := by
    show ((h.cells ++ [rollStatsDict draws1]) ++ [rollStatsDict draws2])[h.cells.length]?
      = some (rollStatsDict draws1)
    rw [List.getElem?_append]
    rw [if_pos (by simp)]
    rw [List.getElem?_concat_length]
  have hread2 : (rollStatsAlloc (rollStatsAlloc h draws1).2 draws2).2.read
      (rollStatsAlloc (rollStatsAlloc h draws1).2 draws2).1
      = some (rollStatsDict draws2) := by
    show ((h.cells ++ [rollStatsDict draws1]) ++ [rollStatsDict draws2])[(h.cells ++ [rollStatsDict draws1]).length]?
      = some (rollStatsDict draws2)
    rw [List.getElem?_concat_length]
  obtain ⟨s1b, hs1b⟩ := apply_bonuses_rollStatsDict race draws1
  obtain ⟨s2b, hs2b⟩ := apply_bonuses_rollStatsDict race draws2
  refine ⟨hne,
    ⟨(rollStatsAlloc (rollStatsAlloc h draws1).2 draws2).2.write
        (rollStatsAlloc h draws1).1 s1b, ?_, ?_⟩,
    ⟨(rollStatsAlloc (rollStatsAlloc h draws1).2 draws2).2.write
        (rollStatsAlloc (rollStatsAlloc h draws1).2 draws2).1 s2b, ?_, ?_⟩⟩
  · simp [applyBonusesRef, hread1, hs1b]
  · exact read_write_ne _ _ _ _ hne
  · simp [applyBonusesRef, hread2, hs2b]
  · exact read_write_ne _ _ _ _ (Ne.symm hne)

/-- Witness for `racial_bonus_no_leak`: two Human characters rolled
from an empty heap with constant draw streams. -/
theorem racial_bonus_no_leak_witness :
    (rollStatsAlloc ⟨[]⟩ (fun _ => 3)).1 ≠
      (rollStatsAlloc (rollStatsAlloc ⟨[]⟩ (fun _ => 3)).2 (fun _ => 4)).1 ∧
    (∃ h3, applyBonusesRef (rollStatsAlloc (rollStatsAlloc ⟨[]⟩ (fun _ => 3)).2 (fun _ => 4)).2
        (rollStatsAlloc ⟨[]⟩ (fun _ => 3)).1 Race.Human = some h3 ∧
      h3.read (rollStatsAlloc (rollStatsAlloc ⟨[]⟩ (fun _ => 3)).2 (fun _ => 4)).1 =
        (rollStatsAlloc (rollStatsAlloc ⟨[]⟩ (fun _ => 3)).2 (fun _ => 4)).2.read
          (rollStatsAlloc (rollStatsAlloc ⟨[]⟩ (fun _ => 3)).2 (fun _ => 4)).1) ∧
    (∃ h4, applyBonusesRef (rollStatsAlloc (rollStatsAlloc ⟨[]⟩ (fun _ => 3)).2 (fun _ => 4)).2
        (rollStatsAlloc (rollStatsAlloc ⟨[]⟩ (fun _ => 3)).2 (fun _ => 4)).1 Race.Human = some h4 ∧
      h4.read (rollStatsAlloc ⟨[]⟩ (fun _ => 3)).1 =
        (rollStatsAlloc (rollStatsAlloc ⟨[]⟩ (fun _ => 3)).2 (fun _ => 4)).2.read
          (rollStatsAlloc ⟨[]⟩ (fun _ => 3)).1) :=
  racial_bonus_no_leak ⟨[]⟩ (fun _ => 3) (fun _ => 4) Race.Human

end DndGame
